import Mathlib

/-!
Verification of the corrodoro pomodoro timer against its specification.

The timer state machine is embedded from `src/pomodoro.rs`. Rust
`std::time::Duration` values are modelled as natural numbers of
nanoseconds, bounded by `durMax` (the largest representable duration:
`u64::MAX` seconds plus `999_999_999` nanoseconds). Operations of the
source that can panic (unchecked `Duration` addition or subtraction)
are modelled as `Option`-valued functions returning `none` exactly
where the source panics. The `u32` counter `completed_focus_sessions`
is modelled as a natural number reduced modulo `2^32` at each
increment, matching release-mode wrapping arithmetic.
-/

/-- Largest value of a Rust `std::time::Duration`, in nanoseconds:
`u64::MAX` whole seconds plus `999_999_999` nanoseconds. -/
def durMax : Nat := 18446744073709551615 * 1000000000 + 999999999

/-- `2^32`, the modulus of `u32` arithmetic. -/
def U32 : Nat := 4294967296

/-- `2^64`, the modulus of `u64` arithmetic. -/
def U64 : Nat := 18446744073709551616

/-- `Duration::checked_add` from the Rust standard library: `some` of the
sum when it is representable, `none` on overflow. -/
def durCheckedAdd (a b : Nat) : Option Nat :=
  if a + b ≤ durMax then some (a + b) else none

/-- The three timer phases, from `enum Activity` in `src/pomodoro.rs`. -/
inductive Activity where
  | focus
  | shortBreak
  | longBreak
deriving DecidableEq

/-- `Activity::is_focus` from `src/pomodoro.rs`. -/
def Activity.is_focus : Activity → Bool
  | .focus => true
  | _ => false

/-- `struct Settings` from `src/pomodoro.rs`; durations in nanoseconds. -/
structure Settings where
  focus_duration : Nat
  short_break_duration : Nat
  long_break_duration : Nat
  start_automatically : Bool
deriving DecidableEq

/-- `struct State` from `src/pomodoro.rs`; durations in nanoseconds,
`completed_focus_sessions` a `u32` kept reduced modulo `2^32`. -/
structure State where
  activity : Activity
  progress : Nat
  completed_focus_sessions : Nat
  timer_is_active : Bool
  settings : Settings
  current_activity_duration_override : Option Nat
deriving DecidableEq

namespace State

/-- `State::new` from `src/pomodoro.rs`. -/
def new (settings : Settings) : State where
  activity := .focus
  progress := 0
  completed_focus_sessions := 0
  timer_is_active := settings.start_automatically
  settings := settings
  current_activity_duration_override := none

/-- `State::current_activity_duration` from `src/pomodoro.rs`:
the override if present, else the settings field matching the activity. -/
def current_activity_duration (s : State) : Nat :=
  match s.current_activity_duration_override with
  | some d => d
  | none =>
    match s.activity with
    | .focus => s.settings.focus_duration
    | .shortBreak => s.settings.short_break_duration
    | .longBreak => s.settings.long_break_duration

/-- `State::next_activity` from `src/pomodoro.rs`. -/
def next_activity (s : State) : Activity :=
  match s.activity with
  | .focus =>
    if s.completed_focus_sessions % 4 = 0 then .longBreak else .shortBreak
  | .shortBreak => .focus
  | .longBreak => .focus

/-- `State::start_timer` from `src/pomodoro.rs`. -/
def start_timer (s : State) : State := { s with timer_is_active := true }

/-- `State::stop_timer` from `src/pomodoro.rs`. -/
def stop_timer (s : State) : State := { s with timer_is_active := false }

/-- `State::toggle_timer` from `src/pomodoro.rs`. -/
def toggle_timer (s : State) : State :=
  { s with timer_is_active := !s.timer_is_active }

/-- `State::increase_progress` from `src/pomodoro.rs`. The source first
performs an unchecked `Duration` addition `*self.progress += duration`,
which panics on overflow; this is modelled by returning `none` when the
sum exceeds `durMax`. On expiry the override is cleared, the focus
counter incremented (wrapping `u32`) when the ending activity was Focus,
and the next activity computed from the incremented counter. -/
def increase_progress (s : State) (duration : Nat) : Option State :=
  if durMax < s.progress + duration then none
  else
    let p := s.progress + duration
    let max_duration := current_activity_duration s
    if max_duration ≤ p then
      let s₁ : State :=
        { s with
          progress := if s.settings.start_automatically then p - max_duration else 0
          timer_is_active := s.settings.start_automatically
          current_activity_duration_override := none
          completed_focus_sessions :=
            if s.activity.is_focus then (s.completed_focus_sessions + 1) % U32
            else s.completed_focus_sessions }
      some { s₁ with activity := next_activity s₁ }
    else
      some { s with progress := p }

/-- `State::time_remaining` from `src/pomodoro.rs`: the unchecked
`Duration` subtraction `*current_activity_duration - *progress` panics
when progress exceeds the duration; modelled by `none` there. -/
def time_remaining (s : State) : Option Nat :=
  if s.progress ≤ current_activity_duration s then
    some (current_activity_duration s - s.progress)
  else none

/-- `State::skip_activity` from `src/pomodoro.rs`. -/
def skip_activity (s : State) : State :=
  let s₁ : State :=
    { s with
      progress := 0
      current_activity_duration_override := none
      completed_focus_sessions :=
        if s.activity.is_focus then (s.completed_focus_sessions + 1) % U32
        else s.completed_focus_sessions
      timer_is_active := s.settings.start_automatically }
  { s₁ with activity := next_activity s₁ }

/-- `State::extend_activity` from `src/pomodoro.rs`: sets the override to
`current_activity_duration + duration` when the checked addition
succeeds, otherwise does nothing. -/
def extend_activity (s : State) (duration : Nat) : State :=
  match durCheckedAdd (current_activity_duration s) duration with
  | some sum => { s with current_activity_duration_override := some sum }
  | none => s

/-- `State::reduce_activity` from `src/pomodoro.rs`: guarded by
`*time_remaining > *duration`; the call to `time_remaining` itself can
panic, hence the `Option`. -/
def reduce_activity (s : State) (duration : Nat) : Option State :=
  (time_remaining s).map fun rem =>
    if duration < rem then
      { s with
        current_activity_duration_override :=
          some (current_activity_duration s - duration) }
    else s

/-- `State::reset` from `src/pomodoro.rs`. -/
def reset (s : State) : State :=
  { s with
    activity := .focus
    progress := 0
    completed_focus_sessions := 0
    timer_is_active := s.settings.start_automatically
    current_activity_duration_override := none }

end State

/-- The timer tick of `App::run_inner` in `src/app.rs` (lines 66-71):
`increase_progress` is called only when `timer_is_active`; otherwise the
pomodoro state is untouched. This guarded operation is the spec's
`advance`. -/
def advance (s : State) (elapsed : Nat) : Option State :=
  if s.timer_is_active then s.increase_progress elapsed else some s

/-- C1: for every timer state in which `timer_is_active` is false and
every elapsed duration, `advance` leaves the state unchanged; when the
timer is active, `advance` is exactly `increase_progress`, so progress
is added only when the timer is active. -/
theorem c1_advance_inactive_noop (s : State) (elapsed : Nat)
    (h : s.timer_is_active = false) : advance s elapsed = some s := by
  simp [advance, h]

def c1ExampleSettings : Settings :=
  { focus_duration := 1500
    short_break_duration := 300
    long_break_duration := 1200
    start_automatically := false }

/-- Witness for C1: the initial state with `start_automatically = false`
has an inactive timer, and `advance` by 5 units leaves it unchanged. -/
theorem c1_advance_inactive_noop_witness :
    advance (State.new c1ExampleSettings) 5 = some (State.new c1ExampleSettings) :=
  c1_advance_inactive_noop (State.new c1ExampleSettings) 5 rfl


/-- Shorthand for installing a duration override, as `extend_activity`
and `reduce_activity` do. -/
def State.setOverride (s : State) (v : Nat) : State :=
  { s with current_activity_duration_override := some v }

/-- The effective duration reads only the override, activity and
settings fields, so overriding it yields exactly the stored value. -/
theorem current_activity_duration_setOverride (s : State) (v : Nat) :
    (s.setOverride v).current_activity_duration = v := rfl

/-- C6: when `d < time_remaining()`, `reduce_activity d` sets the
override to `effective_duration - d` and the remaining time afterwards
is `time_remaining() - d > 0`; when `d ≥ time_remaining()` the call is a
no-op. -/
theorem c6_reduce_keeps_time_positive (s : State) (d r : Nat)
    (h : s.time_remaining = some r) :
    (d < r →
      s.reduce_activity d = some (s.setOverride (s.current_activity_duration - d)) ∧
      (s.setOverride (s.current_activity_duration - d)).time_remaining = some (r - d) ∧
      0 < r - d) ∧
    (r ≤ d → s.reduce_activity d = some s) := by
  unfold State.time_remaining at h
  split at h
  case isFalse => exact absurd h (by simp)
  case isTrue hp =>
    have hr : s.current_activity_duration - s.progress = r := by
      simpa using h
    constructor
    · intro hd
      refine ⟨?_, ?_, by omega⟩
      · simp [State.reduce_activity, State.time_remaining, State.setOverride, hp, hr, hd]
      · unfold State.time_remaining
        rw [current_activity_duration_setOverride]
        have hple : (s.setOverride (s.current_activity_duration - d)).progress ≤
            s.current_activity_duration - d := by
          show s.progress ≤ s.current_activity_duration - d
          omega
        rw [if_pos hple]
        have hpr : (s.setOverride (s.current_activity_duration - d)).progress
            = s.progress := rfl
        rw [hpr]
        congr 1
        omega
    · intro hd
      have hnot : ¬ d < r := by omega
      simp [State.reduce_activity, State.time_remaining, hp, hr, hnot]

def c6ExampleState : State := State.new c1ExampleSettings

/-- Witness for C6: in the fresh state the remaining time is 1500; after
`reduce_activity 3` the override is 1497 and 1497 remains, positive. -/
theorem c6_reduce_keeps_time_positive_witness :
    c6ExampleState.reduce_activity 3 =
      some (c6ExampleState.setOverride (c6ExampleState.current_activity_duration - 3)) ∧
    (c6ExampleState.setOverride
      (c6ExampleState.current_activity_duration - 3)).time_remaining =
      some (1500 - 3) ∧
    0 < 1500 - 3 :=
  (c6_reduce_keeps_time_positive c6ExampleState 3 1500 rfl).1 (by decide)

def overshootSettings : Settings :=
  { focus_duration := 1
    short_break_duration := 1
    long_break_duration := 1
    start_automatically := true }

/-- The state reached from `State.new overshootSettings` by a single
tick of 3 units: the focus activity expired with 2 units of overshoot
carried into a short break whose duration is only 1 unit. -/
def overshootState : State :=
  { activity := .shortBreak
    progress := 2
    completed_focus_sessions := 1
    timer_is_active := true
    settings := overshootSettings
    current_activity_duration_override := none }

/-- Counterexample to C7 as stated: on the reachable state
`overshootState` (progress 2 exceeds the effective duration 1),
`extend_activity 5` followed by `reduce_activity 5` yields effective
duration 6, not the original 1, even though `1 + 5` does not overflow. -/
theorem c7_counterexample :
    advance (State.new overshootSettings) 3 = some overshootState ∧
    overshootState.current_activity_duration = 1 ∧
    (overshootState.extend_activity 5).reduce_activity 5 =
      some (overshootState.setOverride 6) ∧
    (overshootState.setOverride 6).current_activity_duration = 6 ∧
    (6 : Nat) ≠ 1 := by
  refine ⟨by decide, by decide, by decide, by decide, by decide⟩

/-- C7 amended: for every state whose progress is strictly below the
effective duration and every d whose addition to the effective duration
does not overflow, `extend_activity d` followed by `reduce_activity d`
restores the original effective duration. -/
theorem c7_extend_reduce_roundtrip (s : State) (d : Nat)
    (h1 : s.progress < s.current_activity_duration)
    (h2 : s.current_activity_duration + d ≤ durMax) :
    (s.extend_activity d).reduce_activity d =
      some (s.setOverride s.current_activity_duration) ∧
    (s.setOverride s.current_activity_duration).current_activity_duration =
      s.current_activity_duration := by
  refine ⟨?_, rfl⟩
  have hext : s.extend_activity d = s.setOverride (s.current_activity_duration + d) := by
    simp [State.extend_activity, State.setOverride, durCheckedAdd, h2]
  rw [hext]
  unfold State.reduce_activity State.time_remaining
  rw [current_activity_duration_setOverride]
  have hpr : (s.setOverride (s.current_activity_duration + d)).progress = s.progress := rfl
  rw [hpr]
  have hple : s.progress ≤ s.current_activity_duration + d := by omega
  rw [if_pos hple]
  have hlt : d < s.current_activity_duration + d - s.progress := by omega
  simp only [Option.map_some', hlt, if_pos]
  have harith : s.current_activity_duration + d - d = s.current_activity_duration := by
    omega
  rw [harith]
  rfl

/-- Witness for C7 (amended): fresh state, extend then reduce by 40
restores the effective duration 1500. -/
theorem c7_extend_reduce_roundtrip_witness :
    ((State.new c1ExampleSettings).extend_activity 40).reduce_activity 40 =
      some ((State.new c1ExampleSettings).setOverride
        (State.new c1ExampleSettings).current_activity_duration) ∧
    ((State.new c1ExampleSettings).setOverride
      (State.new c1ExampleSettings).current_activity_duration).current_activity_duration =
      (State.new c1ExampleSettings).current_activity_duration :=
  c7_extend_reduce_roundtrip (State.new c1ExampleSettings) 40 (by decide) (by decide)

/-- Equality of two states on every field except the duration override. -/
def AgreesExceptOverride (a b : State) : Prop :=
  a.activity = b.activity ∧ a.progress = b.progress ∧
  a.completed_focus_sessions = b.completed_focus_sessions ∧
  a.timer_is_active = b.timer_is_active ∧ a.settings = b.settings

/-- C10: `extend_activity` and `reduce_activity` change at most the
duration override; every other field is preserved whether or not the
guard fires (for `reduce_activity`, on every non-panicking run). -/
theorem c10_extend_reduce_frame (s : State) (d : Nat) :
    AgreesExceptOverride s (s.extend_activity d) ∧
    (∀ s', s.reduce_activity d = some s' → AgreesExceptOverride s s') := by
  constructor
  · unfold State.extend_activity
    split <;> exact ⟨rfl, rfl, rfl, rfl, rfl⟩
  · intro s' h
    unfold State.reduce_activity at h
    cases htr : s.time_remaining with
    | none => rw [htr] at h; exact absurd h (by simp)
    | some r =>
      rw [htr] at h
      simp only [Option.map_some', Option.some.injEq] at h
      subst h
      split <;> exact ⟨rfl, rfl, rfl, rfl, rfl⟩

/-- Witness for C10: concrete extend and reduce by 3 on the fresh state
leave all fields but the override intact. -/
theorem c10_extend_reduce_frame_witness :
    AgreesExceptOverride c6ExampleState (c6ExampleState.extend_activity 3) ∧
    AgreesExceptOverride c6ExampleState (c6ExampleState.setOverride 1497) :=
  ⟨(c10_extend_reduce_frame c6ExampleState 3).1,
   (c10_extend_reduce_frame c6ExampleState 3).2
     (c6ExampleState.setOverride 1497) (by decide)⟩

/-- A state with the timer manually started and `start_automatically`
false, reached from the fresh state by `toggle_timer`. -/
def c3StartState : State := (State.new c1ExampleSettings).toggle_timer

/-- The state produced by `advance c3StartState 1500`. -/
def c3EndState : State :=
  { activity := .shortBreak
    progress := 0
    completed_focus_sessions := 1
    timer_is_active := false
    settings := c1ExampleSettings
    current_activity_duration_override := none }

/-- Counterexample to C3 as stated: on expiry with
`start_automatically = false` the code sets progress to 0, it does not
clamp progress to the effective duration (1500 here). -/
theorem c3_counterexample :
    c3StartState.current_activity_duration = 1500 ∧
    advance c3StartState 1500 = some c3EndState ∧
    c3EndState.progress = 0 ∧
    c3EndState.progress ≠ c3StartState.current_activity_duration := by
  refine ⟨by decide, by decide, by decide, by decide⟩

/-- C3 amended: with the timer active, `start_automatically = false`,
and `progress + elapsed ≥ effective_duration`, `advance` sets progress
to 0 (not to the effective duration), deactivates the timer, clears the
override, increments the focus counter (wrapping `u32`) iff the ending
activity was Focus, keeps the settings, and moves to the next activity
computed with the post-increment counter. -/
theorem c3_advance_expiry (s : State) (e : Nat) (s' : State)
    (hauto : s.settings.start_automatically = false)
    (hactive : s.timer_is_active = true)
    (hexp : s.current_activity_duration ≤ s.progress + e)
    (h : advance s e = some s') :
    s'.progress = 0 ∧
    s'.timer_is_active = false ∧
    s'.current_activity_duration_override = none ∧
    s'.completed_focus_sessions =
      (if s.activity.is_focus then (s.completed_focus_sessions + 1) % U32
       else s.completed_focus_sessions) ∧
    s'.activity =
      State.next_activity
        { s with completed_focus_sessions := s'.completed_focus_sessions } ∧
    s'.settings = s.settings := by
  unfold advance at h
  rw [if_pos hactive] at h
  unfold State.increase_progress at h
  by_cases hov : durMax < s.progress + e
  · rw [if_pos hov] at h
    exact absurd h (by simp)
  · rw [if_neg hov] at h
    simp only [] at h
    rw [if_pos hexp, hauto] at h
    simp only [Bool.false_eq_true, if_false, Option.some.injEq] at h
    subst h
    refine ⟨rfl, rfl, rfl, rfl, ?_, rfl⟩
    cases hact : s.activity <;> simp [State.next_activity, hact]

/-- Witness for C3 (amended): the concrete expiry scenario of the spec
(25m focus, advance by the full 1500, timer started manually). -/
theorem c3_advance_expiry_witness :
    c3EndState.progress = 0 ∧
    c3EndState.timer_is_active = false ∧
    c3EndState.current_activity_duration_override = none ∧
    c3EndState.completed_focus_sessions =
      (if c3StartState.activity.is_focus
       then (c3StartState.completed_focus_sessions + 1) % U32
       else c3StartState.completed_focus_sessions) ∧
    c3EndState.activity =
      State.next_activity
        { c3StartState with
          completed_focus_sessions := c3EndState.completed_focus_sessions } ∧
    c3EndState.settings = c3StartState.settings :=
  c3_advance_expiry c3StartState 1500 c3EndState rfl rfl (by decide) (by decide)

/-- C4: the failure-freedom claim is contradicted by the code. From
`Settings{focus=1, short=1, long=1, start_automatically=true}` a single
tick of 3 units is carried over into a 1-unit short break with progress
2, and on that reachable state `time_remaining()` underflows the
unchecked `Duration` subtraction (a panic, modelled as `none`);
`reduce_activity`, which calls `time_remaining`, fails on the same
state. -/
theorem c4_time_remaining_underflows_on_reachable_state :
    advance (State.new overshootSettings) 3 = some overshootState ∧
    overshootState.current_activity_duration < overshootState.progress ∧
    overshootState.time_remaining = none ∧
    overshootState.reduce_activity 1 = none := by
  refine ⟨by decide, by decide, by decide, by decide⟩

/-- The invariant of the spec: progress lies strictly below the
effective duration (the lower bound `0 ≤ progress` is inherent to the
model). -/
abbrev ProgressInv (s : State) : Prop :=
  s.progress < s.current_activity_duration

/-- All three configured durations are positive. -/
abbrev PosSettings (stg : Settings) : Prop :=
  0 < stg.focus_duration ∧ 0 < stg.short_break_duration ∧
  0 < stg.long_break_duration

/-- Counterexample to C5 as stated: the invariant holds in the fresh
state but `advance` by 3 units (with `start_automatically = true`)
returns a state whose progress 2 exceeds the new effective duration 1. -/
theorem c5_counterexample :
    ProgressInv (State.new overshootSettings) ∧
    advance (State.new overshootSettings) 3 = some overshootState ∧
    ¬ ProgressInv overshootState := by
  refine ⟨by decide, by decide, by decide⟩

/-- C5 amended: when all three configured durations are positive and
`start_automatically` is false, the invariant
`0 ≤ progress < effective_duration` holds in the initial state and is
preserved by every public operation of the state machine (for the
fallible operations, on every non-panicking run). -/
theorem c5_invariant_preserved (stg : Settings) (s : State) (e d : Nat)
    (hpos : PosSettings stg) (hauto : stg.start_automatically = false)
    (hs : s.settings = stg) (hinv : ProgressInv s) :
    ProgressInv (State.new stg) ∧
    (∀ s', advance s e = some s' → ProgressInv s') ∧
    (∀ s', s.increase_progress e = some s' → ProgressInv s') ∧
    ProgressInv s.skip_activity ∧
    ProgressInv (s.extend_activity d) ∧
    (∀ s', s.reduce_activity d = some s' → ProgressInv s') ∧
    ProgressInv s.toggle_timer ∧
    ProgressInv s.start_timer ∧
    ProgressInv s.stop_timer ∧
    ProgressInv s.reset := by
  obtain ⟨hf, hsb, hlb⟩ := hpos
  have hnew : ProgressInv (State.new stg) := by
    show (0 : Nat) < State.current_activity_duration (State.new stg)
    show (0 : Nat) < stg.focus_duration
    exact hf
  have hposNext : ∀ t : State, t.settings = stg →
      t.current_activity_duration_override = none → t.progress = 0 →
      ProgressInv t := by
    intro t ht hov hp
    show t.progress < t.current_activity_duration
    rw [hp]
    unfold State.current_activity_duration
    rw [hov, ht]
    cases t.activity <;> assumption
  have hskip : ProgressInv s.skip_activity := by
    apply hposNext
    · show s.settings = stg
      exact hs
    · rfl
    · rfl
  have hincr : ∀ s', s.increase_progress e = some s' → ProgressInv s' := by
    intro s' h
    unfold State.increase_progress at h
    by_cases hov : durMax < s.progress + e
    · rw [if_pos hov] at h
      exact absurd h (by simp)
    · rw [if_neg hov] at h
      simp only [] at h
      by_cases hexp : s.current_activity_duration ≤ s.progress + e
      · rw [if_pos hexp] at h
        rw [hs, hauto] at h
        simp only [Bool.false_eq_true, if_false, Option.some.injEq] at h
        subst h
        apply hposNext
        · rfl
        · rfl
        · rfl
      · rw [if_neg hexp] at h
        simp only [Option.some.injEq] at h
        subst h
        show s.progress + e < State.current_activity_duration { s with progress := s.progress + e }
        have hsame : State.current_activity_duration { s with progress := s.progress + e } =
            s.current_activity_duration := rfl
        rw [hsame]
        omega
  have hext : ProgressInv (s.extend_activity d) := by
    unfold State.extend_activity durCheckedAdd
    by_cases hle : s.current_activity_duration + d ≤ durMax
    · rw [if_pos hle]
      show s.progress < s.current_activity_duration + d
      have : s.progress < s.current_activity_duration := hinv
      omega
    · rw [if_neg hle]
      exact hinv
  have hred : ∀ s', s.reduce_activity d = some s' → ProgressInv s' := by
    intro s' h
    unfold State.reduce_activity State.time_remaining at h
    have hple : s.progress ≤ s.current_activity_duration := le_of_lt hinv
    rw [if_pos hple] at h
    simp only [Option.map_some', Option.some.injEq] at h
    by_cases hd : d < s.current_activity_duration - s.progress
    · rw [if_pos hd] at h
      subst h
      show s.progress < s.current_activity_duration - d
      omega
    · rw [if_neg hd] at h
      subst h
      exact hinv
  have hadv : ∀ s', advance s e = some s' → ProgressInv s' := by
    intro s' h
    unfold advance at h
    by_cases hact : s.timer_is_active = true
    · rw [if_pos hact] at h
      exact hincr s' h
    · rw [if_neg hact] at h
      simp only [Option.some.injEq] at h
      subst h
      exact hinv
  refine ⟨hnew, hadv, hincr, hskip, hext, hred, hinv, hinv, hinv, ?_⟩
  show (0 : Nat) < State.current_activity_duration s.reset
  show (0 : Nat) < s.settings.focus_duration
  rw [hs]
  exact hf

/-- Witness for C5 (amended): concrete checks of every conjunct at the
fresh state with positive 25m/5m/20m settings, `e = 10`, `d = 7`. -/
theorem c5_invariant_preserved_witness :
    ProgressInv (State.new c1ExampleSettings) ∧
    ProgressInv { State.new c1ExampleSettings with progress := 10 } ∧
    ProgressInv (State.new c1ExampleSettings).skip_activity ∧
    ProgressInv ((State.new c1ExampleSettings).extend_activity 7) ∧
    ProgressInv ((State.new c1ExampleSettings).setOverride 1493) ∧
    ProgressInv (State.new c1ExampleSettings).toggle_timer ∧
    ProgressInv (State.new c1ExampleSettings).reset := by
  have h := c5_invariant_preserved c1ExampleSettings
    (State.new c1ExampleSettings) 10 7
    (by refine ⟨by decide, by decide, by decide⟩) rfl rfl (by decide)
  exact ⟨h.1,
    h.2.2.1 { State.new c1ExampleSettings with progress := 10 } (by decide),
    h.2.2.2.1,
    h.2.2.2.2.1,
    h.2.2.2.2.2.1 ((State.new c1ExampleSettings).setOverride 1493) (by decide),
    h.2.2.2.2.2.2.1,
    h.2.2.2.2.2.2.2.2.2⟩

/-- One completion of the current activity: either an explicit skip, or
an expiring tick (`increase_progress` reaching or passing the effective
duration). -/
inductive CompStep : State → State → Prop where
  | skip (s : State) : CompStep s s.skip_activity
  | expire (s : State) (e : Nat) (s' : State)
      (hexp : s.current_activity_duration ≤ s.progress + e)
      (h : s.increase_progress e = some s') : CompStep s s'

/-- `n` completions starting from the fresh state built from `stg`. -/
inductive ReachN (stg : Settings) : Nat → State → Prop where
  | zero : ReachN stg 0 (State.new stg)
  | succ {n : Nat} {s s' : State} :
      ReachN stg n s → CompStep s s' → ReachN stg (n + 1) s'

/-- With `start_automatically = false`, completing an activity by expiry
produces exactly the state that `skip_activity` produces. -/
theorem compStep_eq_skip (s s' : State)
    (hauto : s.settings.start_automatically = false)
    (h : CompStep s s') : s' = s.skip_activity := by
  cases h with
  | skip => rfl
  | expire e t hexp hinc =>
    unfold State.increase_progress at hinc
    by_cases hov : durMax < s.progress + e
    · rw [if_pos hov] at hinc
      exact absurd hinc (by simp)
    · rw [if_neg hov] at hinc
      simp only [] at hinc
      rw [if_pos hexp, hauto] at hinc
      simp only [Bool.false_eq_true, if_false, Option.some.injEq] at hinc
      subst hinc
      unfold State.skip_activity
      simp only []
      rw [hauto]

/-- `skip_activity` never changes the settings. -/
theorem skip_activity_settings (s : State) :
    s.skip_activity.settings = s.settings := rfl

/-- Iterating `skip_activity` from the fresh state never changes the
settings. -/
theorem skipIter_settings (stg : Settings) (n : Nat) :
    (State.skip_activity^[n] (State.new stg)).settings = stg := by
  induction n with
  | zero => rfl
  | succ n ih =>
    rw [Function.iterate_succ_apply', skip_activity_settings]
    exact ih

/-- With `start_automatically = false`, every sequence of `n`
completions lands on the `n`-fold `skip_activity` iterate of the fresh
state. -/
theorem reachN_eq_skipIter (stg : Settings) (n : Nat) (s : State)
    (hauto : stg.start_automatically = false)
    (h : ReachN stg n s) :
    s = State.skip_activity^[n] (State.new stg) := by
  induction h with
  | zero => rfl
  | succ hr hstep ih =>
    rename_i m t t'
    rw [Function.iterate_succ_apply']
    rw [← ih]
    apply compStep_eq_skip
    · rw [ih, skipIter_settings]
      exact hauto
    · exact hstep

/-- Every iterate of `skip_activity` is reachable by completions. -/
theorem reachN_skipIter (stg : Settings) (n : Nat) :
    ReachN stg n (State.skip_activity^[n] (State.new stg)) := by
  induction n with
  | zero => exact .zero
  | succ n ih =>
    rw [Function.iterate_succ_apply']
    exact .succ ih (CompStep.skip _)

/-- Reducing modulo `2^32` commutes with the 4-cycle test. -/
theorem mod_U32_mod_four (a : Nat) : a % U32 % 4 = a % 4 :=
  Nat.mod_mod_of_dvd a (by decide)

/-- Skipping the focus state with counter `k % 2^32` bumps the counter
to `(k+1) % 2^32` and enters LongBreak iff `k + 1` is a multiple of 4. -/
theorem skip_focus_closed (stg : Settings)
    (hauto : stg.start_automatically = false) (k : Nat) :
    State.skip_activity
      { activity := .focus, progress := 0,
        completed_focus_sessions := k % U32, timer_is_active := false,
        settings := stg, current_activity_duration_override := none } =
      { activity := (if (k + 1) % 4 = 0 then .longBreak else .shortBreak),
        progress := 0, completed_focus_sessions := (k + 1) % U32,
        timer_is_active := false, settings := stg,
        current_activity_duration_override := none } := by
  have hc : (k % U32 + 1) % U32 = (k + 1) % U32 := by
    unfold U32
    omega
  unfold State.skip_activity
  simp only [State.next_activity, Activity.is_focus, if_true, hauto, hc,
    State.mk.injEq, and_true, true_and]
  rw [mod_U32_mod_four]

/-- Skipping either break state returns to Focus without touching the
counter. -/
theorem skip_break_closed (stg : Settings)
    (hauto : stg.start_automatically = false) (a : Activity)
    (ha : a.is_focus = false) (c : Nat) :
    State.skip_activity
      { activity := a, progress := 0, completed_focus_sessions := c,
        timer_is_active := false, settings := stg,
        current_activity_duration_override := none } =
      { activity := .focus, progress := 0, completed_focus_sessions := c,
        timer_is_active := false, settings := stg,
        current_activity_duration_override := none } := by
  unfold State.skip_activity
  cases a with
  | focus => exact absurd ha (by decide)
  | shortBreak => simp [State.next_activity, Activity.is_focus, hauto]
  | longBreak => simp [State.next_activity, Activity.is_focus, hauto]

/-- Closed form of the completion trace with manual restarts: after
`2k` completions the state is Focus with counter `k % 2^32`; after
`2k+1` completions the counter is `(k+1) % 2^32` and the activity is
LongBreak iff `k+1` is a multiple of 4, else ShortBreak. -/
theorem skipIter_closed (stg : Settings)
    (hauto : stg.start_automatically = false) (k : Nat) :
    State.skip_activity^[2 * k] (State.new stg) =
      { activity := .focus, progress := 0,
        completed_focus_sessions := k % U32, timer_is_active := false,
        settings := stg, current_activity_duration_override := none } ∧
    State.skip_activity^[2 * k + 1] (State.new stg) =
      { activity := (if (k + 1) % 4 = 0 then .longBreak else .shortBreak),
        progress := 0, completed_focus_sessions := (k + 1) % U32,
        timer_is_active := false, settings := stg,
        current_activity_duration_override := none } := by
  induction k with
  | zero =>
    constructor
    · show State.new stg = _
      unfold State.new
      rw [hauto]
      simp [Nat.zero_mod]
    · show State.skip_activity^[1] (State.new stg) = _
      rw [Function.iterate_one]
      have h0 : State.new stg =
          { activity := .focus, progress := 0,
            completed_focus_sessions := 0 % U32, timer_is_active := false,
            settings := stg, current_activity_duration_override := none } := by
        unfold State.new
        rw [hauto]
        simp [Nat.zero_mod]
      rw [h0, skip_focus_closed stg hauto 0]
  | succ k ih =>
    have heven : State.skip_activity^[2 * (k + 1)] (State.new stg) =
        { activity := .focus, progress := 0,
          completed_focus_sessions := (k + 1) % U32,
          timer_is_active := false, settings := stg,
          current_activity_duration_override := none } := by
      have hidx : 2 * (k + 1) = (2 * k + 1) + 1 := by omega
      rw [hidx, Function.iterate_succ_apply', ih.2]
      by_cases h4 : (k + 1) % 4 = 0
      · rw [if_pos h4]
        exact skip_break_closed stg hauto .longBreak (by decide) _
      · rw [if_neg h4]
        exact skip_break_closed stg hauto .shortBreak (by decide) _
    refine ⟨heven, ?_⟩
    have hidx : 2 * (k + 1) + 1 = (2 * (k + 1)) + 1 := rfl
    rw [hidx, Function.iterate_succ_apply', heven]
    exact skip_focus_closed stg hauto (k + 1)

/-- C2 amended: with `start_automatically = false`, after `2k`
completions (k focus activities each followed by its break) the
activity is Focus and the counter reads `k % 2^32`; after `2k+1`
completions (the `(k+1)`-th focus activity just ended) the counter
reads `(k+1) % 2^32` — equal to the number of completed focus
activities whenever it is below `2^32` — and the activity entered is
LongBreak iff `(k+1) % 4 == 0`, else ShortBreak. -/
theorem c2_focus_cycle (stg : Settings)
    (hauto : stg.start_automatically = false) (k : Nat) (s t : State)
    (heven : ReachN stg (2 * k) s) (hodd : ReachN stg (2 * k + 1) t) :
    s.activity = .focus ∧
    s.completed_focus_sessions = k % U32 ∧
    t.completed_focus_sessions = (k + 1) % U32 ∧
    t.activity = (if (k + 1) % 4 = 0 then .longBreak else .shortBreak) := by
  have hs := reachN_eq_skipIter stg (2 * k) s hauto heven
  have ht := reachN_eq_skipIter stg (2 * k + 1) t hauto hodd
  obtain ⟨he, ho⟩ := skipIter_closed stg hauto k
  rw [he] at hs
  rw [ho] at ht
  subst hs
  subst ht
  exact ⟨rfl, rfl, rfl, rfl⟩

def c2S6 : State :=
  { activity := .focus, progress := 0, completed_focus_sessions := 3,
    timer_is_active := false, settings := c1ExampleSettings,
    current_activity_duration_override := none }

def c2S7 : State :=
  { activity := .longBreak, progress := 0, completed_focus_sessions := 4,
    timer_is_active := false, settings := c1ExampleSettings,
    current_activity_duration_override := none }

/-- Witness for C2 (amended): after 6 completions the state is Focus
with 3 completed sessions; the 4th focus completion enters LongBreak
with the counter at 4. -/
theorem c2_focus_cycle_witness :
    c2S6.activity = .focus ∧
    c2S6.completed_focus_sessions = 3 % U32 ∧
    c2S7.completed_focus_sessions = (3 + 1) % U32 ∧
    c2S7.activity = (if (3 + 1) % 4 = 0 then .longBreak else .shortBreak) := by
  have h6 : State.skip_activity^[2 * 3] (State.new c1ExampleSettings) = c2S6 := by
    decide
  have h7 : State.skip_activity^[2 * 3 + 1] (State.new c1ExampleSettings) = c2S7 := by
    decide
  exact c2_focus_cycle c1ExampleSettings rfl 3 c2S6 c2S7
    (h6 ▸ reachN_skipIter c1ExampleSettings (2 * 3))
    (h7 ▸ reachN_skipIter c1ExampleSettings (2 * 3 + 1))

def c2WrapState : State :=
  { activity := .longBreak, progress := 0, completed_focus_sessions := 0,
    timer_is_active := false, settings := c1ExampleSettings,
    current_activity_duration_override := none }

/-- Counterexample to C2 as stated: after 8589934591 completions —
exactly `2^32` completed focus activities interleaved with their breaks
— the `u32` counter has wrapped to 0, so `completed_focus_sessions`
does not equal the number `4294967296` of completed focus activities. -/
theorem c2_counterexample :
    ReachN c1ExampleSettings 8589934591 c2WrapState ∧
    c2WrapState.completed_focus_sessions = 0 ∧
    (0 : Nat) ≠ 4294967296 := by
  have hidx : (8589934591 : Nat) = 2 * 4294967295 + 1 := by norm_num
  have hclosed := (skipIter_closed c1ExampleSettings rfl 4294967295).2
  have hstate : State.skip_activity^[2 * 4294967295 + 1]
      (State.new c1ExampleSettings) = c2WrapState := by
    rw [hclosed]
    have h4 : (4294967295 + 1) % 4 = 0 := by norm_num
    have hw : (4294967295 + 1) % U32 = 0 := by
      unfold U32
      norm_num
    rw [if_pos h4, hw]
    rfl
  refine ⟨?_, rfl, by norm_num⟩
  rw [hidx, ← hstate]
  exact reachN_skipIter c1ExampleSettings (2 * 4294967295 + 1)

/-!
Connection layer, from `src/net/server.rs`. Peer socket addresses are
modelled as natural numbers. The framed streams themselves are
abstracted away: whether writing the (fixed) frame to a given peer's
stream succeeds is an oracle `w : Nat → Option ε`, where `none` means
the write succeeded and `some err` that it failed with error `err`.
-/

/-- `Server` from `src/net/server.rs`: the queue of freshly accepted
connections (`connections_rx`) and the map of connected clients, as the
list of its (distinct) peer addresses. -/
structure Server (ε : Type) where
  pending : List Nat
  connected_clients : List Nat

/-- `HashMap::insert` on the key set: a re-inserted address replaces its
stream and leaves the key set unchanged. -/
def insertClient (cs : List Nat) (a : Nat) : List Nat :=
  if a ∈ cs then cs else cs ++ [a]

/-- `Server::accept_queued`: drains the queue of newly accepted
connections into the connected-clients map. -/
def Server.accept_queued (sv : Server ε) : Server ε :=
  { pending := [], connected_clients := sv.pending.foldl insertClient sv.connected_clients }

/-- The send loop of `Server::broadcast_frame` (lines 57-63): attempts
the write on every connection, accumulating `(address, error)` pairs
for the failed ones. -/
def sendToAll (w : Nat → Option ε) : List Nat → List (Nat × ε)
  | [] => []
  | a :: rest =>
    match w a with
    | some err => (a, err) :: sendToAll w rest
    | none => sendToAll w rest

/-- The disconnect loop of `Server::broadcast_frame` (lines 65-67):
`disconnect_client` removes each errored address from the map. -/
def disconnectErrored (conns : List Nat) (errors : List (Nat × ε)) : List Nat :=
  errors.foldl (fun cs p => cs.erase p.1) conns

/-- `Server::broadcast_frame` from `src/net/server.rs`: drain the accept
queue, write the frame to every connection, disconnect the clients whose
write failed, and return `Ok` iff there were no errors, else the list of
`(address, error)` pairs. -/
def Server.broadcast_frame (sv : Server ε) (w : Nat → Option ε) :
    Server ε × Except (List (Nat × ε)) Unit :=
  let sv₁ := sv.accept_queued
  let errors := sendToAll w sv₁.connected_clients
  let remaining := disconnectErrored sv₁.connected_clients errors
  (⟨[], remaining⟩,
    if errors.isEmpty then Except.ok () else Except.error errors)

/-- `Server::clients` from `src/net/server.rs`. -/
def Server.clients (sv : Server ε) : List Nat := sv.connected_clients

/-- The error accumulator is exactly the failed connections, in order:
every connection is attempted, and each failure contributes its
`(address, error)` pair. -/
theorem sendToAll_eq_filterMap (w : Nat → Option ε) (l : List Nat) :
    sendToAll w l = l.filterMap (fun a => (w a).map (fun e => (a, e))) := by
  induction l with
  | nil => rfl
  | cons a rest ih =>
    unfold sendToAll
    cases hw : w a <;> simp [List.filterMap_cons, hw, ih]

/-- Membership after the disconnect loop: an address survives iff it was
connected and no errored pair names it. -/
theorem mem_disconnectErrored (errors : List (Nat × ε)) :
    ∀ (l : List Nat), l.Nodup → ∀ a : Nat,
      (a ∈ disconnectErrored l errors ↔ (a ∈ l ∧ ∀ p ∈ errors, p.1 ≠ a)) := by
  induction errors with
  | nil => intro l hnd a; simp [disconnectErrored]
  | cons q errors ih =>
    intro l hnd a
    have hstep : disconnectErrored l (q :: errors) =
        disconnectErrored (l.erase q.1) errors := rfl
    rw [hstep]
    rw [ih (l.erase q.1) (hnd.erase q.1) a]
    have hme : a ∈ l.erase q.1 ↔ (a ∈ l ∧ a ≠ q.1) := by
      rw [List.Nodup.erase_eq_filter hnd, List.mem_filter]
      simp [bne_iff_ne]
    rw [hme]
    simp only [List.forall_mem_cons]
    constructor
    · rintro ⟨⟨hal, hne⟩, hrest⟩
      exact ⟨hal, fun h => hne h.symm, hrest⟩
    · rintro ⟨hal, hq, hrest⟩
      exact ⟨⟨hal, fun h => hq h.symm⟩, hrest⟩

/-- C8: `broadcast_frame` attempts the write on every connection (the
error list is the `filterMap` over the whole active set), succeeds iff
every write succeeded, otherwise returns exactly the failed
`(address, error)` pairs, and afterwards the active set — and hence
`clients()` — contains exactly the connections whose write succeeded. -/
theorem c8_broadcast_partial_failure (ε : Type) (sv : Server ε)
    (w : Nat → Option ε) (hpending : sv.pending = [])
    (hnd : sv.connected_clients.Nodup) :
    (∀ a : Nat, a ∈ (sv.broadcast_frame w).1.clients ↔
        (a ∈ sv.clients ∧ w a = none)) ∧
    ((sv.broadcast_frame w).2 = Except.ok () ↔
        ∀ a ∈ sv.clients, w a = none) ∧
    (¬ (∀ a ∈ sv.clients, w a = none) →
      (sv.broadcast_frame w).2 =
        Except.error
          (sv.clients.filterMap (fun a => (w a).map (fun e => (a, e))))) := by
  have hacc : sv.accept_queued = ⟨[], sv.connected_clients⟩ := by
    cases sv
    simp only [Server.accept_queued, Server.mk.injEq, true_and]
    subst hpending
    rfl
  have hbc : sv.broadcast_frame w =
      (⟨[], disconnectErrored sv.connected_clients
          (sendToAll w sv.connected_clients)⟩,
        if (sendToAll w sv.connected_clients).isEmpty then Except.ok ()
        else Except.error (sendToAll w sv.connected_clients)) := by
    unfold Server.broadcast_frame
    rw [hacc]
  have herr : sendToAll w sv.connected_clients =
      sv.connected_clients.filterMap (fun a => (w a).map (fun e => (a, e))) :=
    sendToAll_eq_filterMap w sv.connected_clients
  have hempt : (sendToAll w sv.connected_clients).isEmpty = true ↔
      ∀ a ∈ sv.connected_clients, w a = none := by
    rw [herr, List.isEmpty_iff, List.filterMap_eq_nil_iff]
    constructor
    · intro h a ha
      have := h a ha
      cases hw : w a
      · rfl
      · rw [hw] at this
        exact absurd this (by simp)
    · intro h a ha
      rw [h a ha]
      rfl
  refine ⟨?_, ?_, ?_⟩
  · intro a
    rw [hbc]
    show a ∈ disconnectErrored sv.connected_clients
        (sendToAll w sv.connected_clients) ↔ _
    rw [mem_disconnectErrored (sendToAll w sv.connected_clients)
      sv.connected_clients hnd a]
    unfold Server.clients
    constructor
    · rintro ⟨hal, hforall⟩
      refine ⟨hal, ?_⟩
      cases hw : w a
      · rfl
      · rename_i e
        have hmem : (a, e) ∈ sendToAll w sv.connected_clients := by
          rw [herr]
          exact List.mem_filterMap.mpr ⟨a, hal, by rw [hw]; rfl⟩
        exact absurd rfl (hforall (a, e) hmem)
    · rintro ⟨hal, hw⟩
      refine ⟨hal, ?_⟩
      rintro ⟨b, e⟩ hp hba
      rw [herr] at hp
      obtain ⟨c, hc, hce⟩ := List.mem_filterMap.mp hp
      cases hwc : w c with
      | none =>
        rw [hwc] at hce
        exact absurd hce (by simp)
      | some e2 =>
        rw [hwc] at hce
        simp only [Option.map_some', Option.some.injEq, Prod.mk.injEq] at hce
        have hca : c = a := by
          rw [hce.1]
          exact hba
        rw [hca, hw] at hwc
        exact absurd hwc (by simp)
  · rw [hbc]
    show (if (sendToAll w sv.connected_clients).isEmpty then Except.ok ()
        else Except.error (sendToAll w sv.connected_clients)) = Except.ok () ↔ _
    unfold Server.clients
    constructor
    · intro h
      by_cases he : (sendToAll w sv.connected_clients).isEmpty
      · exact hempt.mp he
      · rw [if_neg he] at h
        exact absurd h (by simp)
    · intro h
      rw [if_pos (hempt.mpr h)]
  · intro hnot
    rw [hbc]
    show (if (sendToAll w sv.connected_clients).isEmpty then Except.ok ()
        else Except.error (sendToAll w sv.connected_clients)) = _
    have : ¬ (sendToAll w sv.connected_clients).isEmpty = true := by
      intro he
      exact hnot (hempt.mp he)
    rw [if_neg this, herr]
    rfl

def c8Server : Server Nat := ⟨[], [1, 2, 3]⟩

def c8Writes : Nat → Option Nat := fun a => if a = 2 then some 7 else none

/-- Witness for C8: three peers, peer 2's write fails with error 7;
peers 1 and 3 keep the connection, the result is the error list
`[(2, 7)]`, and `clients()` holds exactly `[1, 3]`. -/
theorem c8_broadcast_partial_failure_witness :
    c8Server.pending = [] ∧
    (c8Server.broadcast_frame c8Writes).1.clients = [1, 3] ∧
    (c8Server.broadcast_frame c8Writes).2 = Except.error [(2, 7)] := by
  have h := c8_broadcast_partial_failure Nat c8Server c8Writes rfl (by decide)
  refine ⟨rfl, by decide, ?_⟩
  have h2 := h.2.2 (by decide)
  have h3 : c8Server.clients.filterMap
      (fun a => (c8Writes a).map (fun e => (a, e))) = [(2, 7)] := rfl
  rw [h2, h3]

/-!
Wire protocol, from `src/net/protocol.rs`. Messages are serialized with
bincode's legacy configuration (as used by the top-level
`bincode::serialize` and `bincode::deserialize`): fixed-width
little-endian integers, enum variants tagged with a `u32`, struct and
newtype-struct fields laid out in declaration order with no framing of
their own. `std::time::Duration` serializes as a `u64` seconds field
followed by a `u32` nanoseconds field; `bool` as one byte (0 or 1);
`f64` as its 8-byte IEEE-754 bit pattern, carried here as an opaque
natural number below `2^64`. Byte sequences are lists of naturals below
256.
-/

/-- Little-endian bytes of a `u32`. -/
def u32Bytes (n : Nat) : List Nat :=
  [n % 256, n / 256 % 256, n / 65536 % 256, n / 16777216 % 256]

/-- Little-endian bytes of a `u64`. -/
def u64Bytes (n : Nat) : List Nat :=
  [n % 256, n / 256 % 256, n / 65536 % 256, n / 16777216 % 256,
   n / 4294967296 % 256, n / 1099511627776 % 256,
   n / 281474976710656 % 256, n / 72057594037927936 % 256]

/-- Read a little-endian `u32` off the front of a byte sequence. -/
def readU32 : List Nat → Option (Nat × List Nat)
  | b0 :: b1 :: b2 :: b3 :: rest =>
    some (b0 + 256 * b1 + 65536 * b2 + 16777216 * b3, rest)
  | _ => none

/-- Read a little-endian `u64` off the front of a byte sequence. -/
def readU64 : List Nat → Option (Nat × List Nat)
  | b0 :: b1 :: b2 :: b3 :: b4 :: b5 :: b6 :: b7 :: rest =>
    some (b0 + 256 * b1 + 65536 * b2 + 16777216 * b3 + 4294967296 * b4 +
      1099511627776 * b5 + 281474976710656 * b6 + 72057594037927936 * b7,
      rest)
  | _ => none

theorem readU32_u32Bytes (n : Nat) (h : n < U32) (rest : List Nat) :
    readU32 (u32Bytes n ++ rest) = some (n, rest) := by
  show some (n % 256 + 256 * (n / 256 % 256) + 65536 * (n / 65536 % 256) +
      16777216 * (n / 16777216 % 256), rest) = some (n, rest)
  simp only [Option.some.injEq, Prod.mk.injEq, and_true]
  unfold U32 at h
  omega

theorem readU64_u64Bytes (n : Nat) (h : n < U64) (rest : List Nat) :
    readU64 (u64Bytes n ++ rest) = some (n, rest) := by
  show some (n % 256 + 256 * (n / 256 % 256) + 65536 * (n / 65536 % 256) +
      16777216 * (n / 16777216 % 256) + 4294967296 * (n / 4294967296 % 256) +
      1099511627776 * (n / 1099511627776 % 256) +
      281474976710656 * (n / 281474976710656 % 256) +
      72057594037927936 * (n / 72057594037927936 % 256), rest) =
      some (n, rest)
  simp only [Option.some.injEq, Prod.mk.injEq, and_true]
  unfold U64 at h
  omega

/-- A `std::time::Duration` on the wire: whole seconds (`u64`) and
subsecond nanoseconds (`u32`). `SessionDuration` is a serde newtype
around it and has the identical encoding. -/
structure WireDuration where
  secs : Nat
  nanos : Nat
deriving DecidableEq

/-- Field bounds guaranteed by the Rust types (`secs: u64`,
`nanos: u32`). -/
def WireDuration.Valid (d : WireDuration) : Prop :=
  d.secs < U64 ∧ d.nanos < U32

def encDuration (d : WireDuration) : List Nat :=
  u64Bytes d.secs ++ u32Bytes d.nanos

def readDuration (bs : List Nat) : Option (WireDuration × List Nat) :=
  (readU64 bs).bind fun p =>
    (readU32 p.2).map fun q => (⟨p.1, q.1⟩, q.2)

theorem readDuration_encDuration (d : WireDuration) (h : d.Valid)
    (rest : List Nat) :
    readDuration (encDuration d ++ rest) = some (d, rest) := by
  unfold encDuration readDuration
  rw [List.append_assoc, readU64_u64Bytes d.secs h.1]
  simp only [Option.some_bind]
  rw [readU32_u32Bytes d.nanos h.2]
  rfl

/-- `enum Event` from `src/net/protocol.rs` (also `src/protocol.rs`),
variants in declaration order. -/
inductive Event where
  | quit
  | toggleTimer
  | resetTimer
  | skipActivity
  | extendActivity (d : WireDuration)
  | reduceActivity (d : WireDuration)
deriving DecidableEq

def Event.Valid : Event → Prop
  | .extendActivity d => d.Valid
  | .reduceActivity d => d.Valid
  | _ => True

def encEvent : Event → List Nat
  | .quit => u32Bytes 0
  | .toggleTimer => u32Bytes 1
  | .resetTimer => u32Bytes 2
  | .skipActivity => u32Bytes 3
  | .extendActivity d => u32Bytes 4 ++ encDuration d
  | .reduceActivity d => u32Bytes 5 ++ encDuration d

def readEvent (bs : List Nat) : Option (Event × List Nat) :=
  (readU32 bs).bind fun p =>
    if p.1 = 0 then some (.quit, p.2)
    else if p.1 = 1 then some (.toggleTimer, p.2)
    else if p.1 = 2 then some (.resetTimer, p.2)
    else if p.1 = 3 then some (.skipActivity, p.2)
    else if p.1 = 4 then
      (readDuration p.2).map fun q => (.extendActivity q.1, q.2)
    else if p.1 = 5 then
      (readDuration p.2).map fun q => (.reduceActivity q.1, q.2)
    else none

theorem readEvent_encEvent (e : Event) (he : e.Valid) (rest : List Nat) :
    readEvent (encEvent e ++ rest) = some (e, rest) := by
  cases e with
  | quit =>
    unfold encEvent readEvent
    rw [readU32_u32Bytes 0 (by decide)]
    simp
  | toggleTimer =>
    unfold encEvent readEvent
    rw [readU32_u32Bytes 1 (by decide)]
    simp
  | resetTimer =>
    unfold encEvent readEvent
    rw [readU32_u32Bytes 2 (by decide)]
    simp
  | skipActivity =>
    unfold encEvent readEvent
    rw [readU32_u32Bytes 3 (by decide)]
    simp
  | extendActivity d =>
    unfold encEvent readEvent
    rw [List.append_assoc, readU32_u32Bytes 4 (by decide)]
    simp [readDuration_encDuration d he]
  | reduceActivity d =>
    unfold encEvent readEvent
    rw [List.append_assoc, readU32_u32Bytes 5 (by decide)]
    simp [readDuration_encDuration d he]

/-- `enum ClientMessage` from `src/net/protocol.rs`. -/
inductive ClientMessage where
  | event (e : Event)
deriving DecidableEq

def ClientMessage.Valid : ClientMessage → Prop
  | .event e => e.Valid

def encClientMessage : ClientMessage → List Nat
  | .event e => u32Bytes 0 ++ encEvent e

def readClientMessage (bs : List Nat) : Option (ClientMessage × List Nat) :=
  (readU32 bs).bind fun p =>
    if p.1 = 0 then
      (readEvent p.2).map fun q => (.event q.1, q.2)
    else none

/-- `ClientMessage::from_bytes` (`bincode::deserialize` over the byte
sequence). -/
def clientMessage_from_bytes (bs : List Nat) : Option ClientMessage :=
  (readClientMessage bs).map Prod.fst

theorem readClientMessage_enc (cm : ClientMessage) (h : cm.Valid)
    (rest : List Nat) :
    readClientMessage (encClientMessage cm ++ rest) = some (cm, rest) := by
  cases cm with
  | event e =>
    unfold encClientMessage readClientMessage
    rw [List.append_assoc, readU32_u32Bytes 0 (by decide)]
    simp [readEvent_encEvent e h]

def encActivity : Activity → List Nat
  | .focus => u32Bytes 0
  | .shortBreak => u32Bytes 1
  | .longBreak => u32Bytes 2

def readActivity (bs : List Nat) : Option (Activity × List Nat) :=
  (readU32 bs).bind fun p =>
    if p.1 = 0 then some (.focus, p.2)
    else if p.1 = 1 then some (.shortBreak, p.2)
    else if p.1 = 2 then some (.longBreak, p.2)
    else none

theorem readActivity_encActivity (a : Activity) (rest : List Nat) :
    readActivity (encActivity a ++ rest) = some (a, rest) := by
  cases a with
  | focus =>
    unfold encActivity readActivity
    rw [readU32_u32Bytes 0 (by decide)]
    simp
  | shortBreak =>
    unfold encActivity readActivity
    rw [readU32_u32Bytes 1 (by decide)]
    simp
  | longBreak =>
    unfold encActivity readActivity
    rw [readU32_u32Bytes 2 (by decide)]
    simp

def encBool (b : Bool) : List Nat := [if b then 1 else 0]

def readBool : List Nat → Option (Bool × List Nat)
  | b0 :: rest =>
    if b0 = 0 then some (false, rest)
    else if b0 = 1 then some (true, rest)
    else none
  | [] => none

theorem readBool_encBool (b : Bool) (rest : List Nat) :
    readBool (encBool b ++ rest) = some (b, rest) := by
  cases b <;> rfl

/-- `struct TimerVisuals` from `src/net/protocol.rs`;
`progress_percentage_bits` is the IEEE-754 bit pattern of the `f64`
field, which bincode copies verbatim. -/
structure TimerVisuals where
  time_remaining : WireDuration
  timer_is_paused : Bool
  activity : Activity
  progress_percentage_bits : Nat
  completed_focus_sessions : Nat
deriving DecidableEq

def TimerVisuals.Valid (v : TimerVisuals) : Prop :=
  v.time_remaining.Valid ∧ v.progress_percentage_bits < U64 ∧
  v.completed_focus_sessions < U32

def encVisuals (v : TimerVisuals) : List Nat :=
  encDuration v.time_remaining ++ encBool v.timer_is_paused ++
  encActivity v.activity ++ u64Bytes v.progress_percentage_bits ++
  u32Bytes v.completed_focus_sessions

def readVisuals (bs : List Nat) : Option (TimerVisuals × List Nat) :=
  (readDuration bs).bind fun p1 =>
    (readBool p1.2).bind fun p2 =>
      (readActivity p2.2).bind fun p3 =>
        (readU64 p3.2).bind fun p4 =>
          (readU32 p4.2).map fun p5 =>
            (⟨p1.1, p2.1, p3.1, p4.1, p5.1⟩, p5.2)

theorem readVisuals_encVisuals (v : TimerVisuals) (hv : v.Valid)
    (rest : List Nat) :
    readVisuals (encVisuals v ++ rest) = some (v, rest) := by
  unfold encVisuals readVisuals
  rw [List.append_assoc, List.append_assoc, List.append_assoc,
    List.append_assoc, readDuration_encDuration v.time_remaining hv.1]
  simp only [Option.some_bind]
  rw [readBool_encBool]
  simp only [Option.some_bind]
  rw [readActivity_encActivity]
  simp only [Option.some_bind]
  rw [readU64_u64Bytes v.progress_percentage_bits hv.2.1]
  simp only [Option.some_bind]
  rw [readU32_u32Bytes v.completed_focus_sessions hv.2.2]
  rfl

/-- `enum ServerMessage` from `src/net/protocol.rs`. -/
inductive ServerMessage where
  | display (v : TimerVisuals)
  | notify (a : Activity)
deriving DecidableEq

def ServerMessage.Valid : ServerMessage → Prop
  | .display v => v.Valid
  | .notify _ => True

def encServerMessage : ServerMessage → List Nat
  | .display v => u32Bytes 0 ++ encVisuals v
  | .notify a => u32Bytes 1 ++ encActivity a

def readServerMessage (bs : List Nat) : Option (ServerMessage × List Nat) :=
  (readU32 bs).bind fun p =>
    if p.1 = 0 then
      (readVisuals p.2).map fun q => (.display q.1, q.2)
    else if p.1 = 1 then
      (readActivity p.2).map fun q => (.notify q.1, q.2)
    else none

/-- `ServerMessage::from_bytes` (`bincode::deserialize` over the byte
sequence). -/
def serverMessage_from_bytes (bs : List Nat) : Option ServerMessage :=
  (readServerMessage bs).map Prod.fst

theorem readServerMessage_enc (sm : ServerMessage) (h : sm.Valid)
    (rest : List Nat) :
    readServerMessage (encServerMessage sm ++ rest) = some (sm, rest) := by
  cases sm with
  | display v =>
    unfold encServerMessage readServerMessage
    rw [List.append_assoc, readU32_u32Bytes 0 (by decide)]
    simp [readVisuals_encVisuals v h]
  | notify a =>
    unfold encServerMessage readServerMessage
    rw [List.append_assoc, readU32_u32Bytes 1 (by decide)]
    simp [readActivity_encActivity a]

/-- Nanosecond value of a wire duration, linking the protocol layer to
the timer model. -/
def wireDurationNanos (d : WireDuration) : Nat :=
  d.secs * 1000000000 + d.nanos

/-- `App::handle_event` from `src/app.rs` (lines 130-164), restricted to
its effect on the pomodoro state: each decoded Event is applied to the
state machine identically regardless of origin (`Quit` only sets the
quit flag). -/
def applyEvent (e : Event) (s : State) : Option State :=
  match e with
  | .toggleTimer => some s.toggle_timer
  | .extendActivity d => some (s.extend_activity (wireDurationNanos d))
  | .reduceActivity d => s.reduce_activity (wireDurationNanos d)
  | .skipActivity => some s.skip_activity
  | .resetTimer => some s.reset
  | .quit => some s

/-- C9: every `ClientMessage` and `ServerMessage` round-trips through
the byte encoding, and the decoded bytes of
`ClientMessage::Event(SkipActivity)` applied to any timer state produce
the same resulting state as calling `skip_activity()` directly. -/
theorem c9_message_roundtrip (cm : ClientMessage) (sm : ServerMessage)
    (s : State) (hcm : cm.Valid) (hsm : sm.Valid) :
    clientMessage_from_bytes (encClientMessage cm) = some cm ∧
    serverMessage_from_bytes (encServerMessage sm) = some sm ∧
    clientMessage_from_bytes (encClientMessage (.event .skipActivity)) =
      some (.event .skipActivity) ∧
    applyEvent .skipActivity s = some s.skip_activity := by
  refine ⟨?_, ?_, by decide, rfl⟩
  · unfold clientMessage_from_bytes
    have h := readClientMessage_enc cm hcm []
    rw [List.append_nil] at h
    rw [h]
    rfl
  · unfold serverMessage_from_bytes
    have h := readServerMessage_enc sm hsm []
    rw [List.append_nil] at h
    rw [h]
    rfl

def c9ClientExample : ClientMessage := .event (.extendActivity ⟨90, 500⟩)

def c9ServerExample : ServerMessage :=
  .display ⟨⟨1500, 0⟩, true, .focus, 4602678819172646912, 2⟩

/-- Witness for C9: a concrete extend message and a concrete display
snapshot round-trip, and the decoded skip event acts as
`skip_activity`. -/
theorem c9_message_roundtrip_witness :
    clientMessage_from_bytes (encClientMessage c9ClientExample) =
      some c9ClientExample ∧
    serverMessage_from_bytes (encServerMessage c9ServerExample) =
      some c9ServerExample ∧
    clientMessage_from_bytes (encClientMessage (.event .skipActivity)) =
      some (.event .skipActivity) ∧
    applyEvent .skipActivity (State.new c1ExampleSettings) =
      some (State.new c1ExampleSettings).skip_activity :=
  c9_message_roundtrip c9ClientExample c9ServerExample
    (State.new c1ExampleSettings)
    (show (90 : Nat) < U64 ∧ (500 : Nat) < U32 by decide)
    (show ((1500 : Nat) < U64 ∧ (0 : Nat) < U32) ∧
        (4602678819172646912 : Nat) < U64 ∧ (2 : Nat) < U32 by decide)
